import Mathlib

/-!
Verification of the request-plane core of the linkerd2-proxy snapshot.

Each component that the checked claims touch is shallowly embedded from the
Rust source under `src/linkerd/...`: pure logic becomes Lean functions, and
stateful poll-style code becomes explicit state passing.  External crates that
the embedded code calls into (indexmap, rand, tower) are modelled from their
documented, stable semantics where a claim depends on them; repository code
that is missing from the snapshot (the cache's `cache.rs` internals) is
modelled from the specification and marked as such in its doc comment.
-/

set_option autoImplicit false

namespace Buffer

/-- The shared queue state of `linkerd/buffer/src/queue.rs` (`struct Inner`).
`in_flight` is an `IndexMap<Token, InFlight>`: a map that preserves insertion
order, embedded here as an association list in insertion order.  The
`push_tasks`/`pop_task` waker registrations carry no request data and are
elided. -/
structure Inner (Req : Type) where
  nextToken : Nat
  inFlight : List (Nat × Req)
  deriving Repr, DecidableEq

/-- The initial state built by `channel` (`next_token: 0`, empty map). -/
def Inner.start (Req : Type) : Inner Req :=
  { nextToken := 0, inFlight := [] }

/-- `IndexMap::insert`: if the key is already present its value is replaced in
place; otherwise the pair is appended, keeping insertion order. -/
def indexInsert {Req : Type} (l : List (Nat × Req)) (k : Nat) (v : Req) :
    List (Nat × Req) :=
  if l.any (fun p => p.1 = k) then
    l.map (fun p => if p.1 = k then (k, v) else p)
  else l ++ [(k, v)]

/-- `Push::push` (queue.rs lines 69-89): inserts the request under the token
`next_token`, then advances `next_token` with `usize::wrapping_add(1)`
(64-bit). The oneshot channel and task notification are elided; the returned
`PushFuture`'s token is the inserted one. -/
def push {Req : Type} (q : Inner Req) (r : Req) : Inner Req :=
  { nextToken := (q.nextToken + 1) % 2 ^ 64,
    inFlight := indexInsert q.inFlight q.nextToken r }

/-- `Pop::poll_pop` (queue.rs lines 101-114): `IndexMap::pop` removes and
returns the *last* key-value pair of the map (the most recently inserted
in-flight entry); with no entry the daemon parks (`NotReady`, here `none`). -/
def poll_pop {Req : Type} (q : Inner Req) :
    Option ((Nat × Req) × Inner Req) :=
  match q.inFlight.getLast? with
  | none => none
  | some p => some (p, { q with inFlight := q.inFlight.dropLast })

/-- Push a whole sequence of requests, in order. -/
def pushAll {Req : Type} (q : Inner Req) : List Req → Inner Req
  | [] => q
  | r :: rs => pushAll (push q r) rs

/-- Repeatedly `poll_pop` until the queue is empty, collecting the yielded
entries in the order the daemon dispatches them to the inner service. -/
def drainAux {Req : Type} : Nat → Inner Req → List (Nat × Req)
  | 0, _ => []
  | n + 1, q =>
    match poll_pop q with
    | none => []
    | some (p, q2) => p :: drainAux n q2

def drain {Req : Type} (q : Inner Req) : List (Nat × Req) :=
  drainAux q.inFlight.length q

theorem drainAux_eq_reverse {Req : Type} :
    ∀ (l : List (Nat × Req)) (q : Inner Req), q.inFlight = l →
      drainAux l.length q = l.reverse := by
  intro l
  induction l using List.reverseRecOn with
  | nil =>
    intro q hq
    simp [drainAux]
  | append_singleton l a ih =>
    intro q hq
    have hlen : (l ++ [a]).length = l.length + 1 := by simp
    have hlast : q.inFlight.getLast? = some a := by
      rw [hq]; simp
    have hdrop : q.inFlight.dropLast = l := by
      rw [hq]; simp
    rw [hlen]
    simp only [drainAux, poll_pop, hlast]
    rw [hdrop, ih { q with inFlight := l } rfl]
    simp

theorem drain_eq_reverse {Req : Type} (q : Inner Req) :
    drain q = q.inFlight.reverse :=
  drainAux_eq_reverse q.inFlight q rfl

theorem indexInsert_fresh {Req : Type} (l : List (Nat × Req)) (k : Nat)
    (v : Req) (h : ∀ p ∈ l, p.1 ≠ k) : indexInsert l k v = l ++ [(k, v)] := by
  unfold indexInsert
  have : l.any (fun p => p.1 = k) = false := by
    simp only [List.any_eq_false, decide_eq_true_eq]
    intro p hp
    exact h p hp
  simp [this]

theorem pushAll_snd {Req : Type} :
    ∀ (rs : List Req) (t : Nat) (l : List (Nat × Req)),
      (∀ p ∈ l, p.1 < t) → t + rs.length ≤ 2 ^ 64 →
      ((pushAll { nextToken := t, inFlight := l } rs).inFlight).map Prod.snd
        = l.map Prod.snd ++ rs := by
  intro rs
  induction rs with
  | nil =>
    intro t l _ _
    simp [pushAll]
  | cons r rs ih =>
    intro t l hkeys hbound
    have hfresh : ∀ p ∈ l, p.1 ≠ t := fun p hp => Nat.ne_of_lt (hkeys p hp)
    simp only [pushAll, push, indexInsert_fresh l t r hfresh]
    rcases Nat.lt_or_ge (t + 1) (2 ^ 64) with hlt | hge
    · have hmod : (t + 1) % 2 ^ 64 = t + 1 := Nat.mod_eq_of_lt hlt
      rw [hmod]
      have hkeys2 : ∀ p ∈ l ++ [(t, r)], p.1 < t + 1 := by
        intro p hp
        rcases List.mem_append.1 hp with hp | hp
        · exact Nat.lt_succ_of_lt (hkeys p hp)
        · simp only [List.mem_singleton] at hp
          subst hp
          simp
      have hbound2 : t + 1 + rs.length ≤ 2 ^ 64 := by
        have := hbound
        simp only [List.length_cons] at this
        omega
      rw [ih (t + 1) (l ++ [(t, r)]) hkeys2 hbound2]
      simp
    · have hrs : rs.length = 0 := by
        have := hbound
        simp only [List.length_cons] at this
        omega
      have hnil : rs = [] := List.length_eq_zero.1 hrs
      subst hnil
      simp [pushAll]

end Buffer

/-- **C1.** Counterexample to FIFO dispatch: push request `1` then request `2`
into an empty buffer queue; the daemon's first `poll_pop` yields request `2`
(the most recently pushed), not request `1`, because `IndexMap::pop` removes
the last entry of the map. -/
theorem c1_fifo_counterexample :
    ∃ q2 : Buffer.Inner Nat,
      Buffer.poll_pop
          (Buffer.push (Buffer.push (Buffer.Inner.start Nat) 1) 2)
        = some ((1, 2), q2)
      ∧ (2 : Nat) ≠ 1 := by
  refine ⟨{ nextToken := 2, inFlight := [(0, 1)] }, ?_, by decide⟩
  decide

/-- **C1 (amended).** The buffer's in-flight queue is dispatched in LIFO
order: for every sequence of requests `r1, …, rn` (`n ≤ 2^64`, so tokens do
not wrap) pushed into an empty queue and not cancelled, successive
`Pop::poll_pop` calls yield them to the inner service in reverse order
`rn, …, r1`. -/
theorem c1_lifo_drain {Req : Type} (rs : List Req)
    (h : rs.length ≤ 2 ^ 64) :
    (Buffer.drain (Buffer.pushAll (Buffer.Inner.start Req) rs)).map Prod.snd
      = rs.reverse := by
  rw [Buffer.drain_eq_reverse, List.map_reverse]
  have := Buffer.pushAll_snd rs 0 [] (by intro p hp; cases hp) (by simpa)
  simp only [Buffer.Inner.start] at this ⊢
  rw [this]
  simp

/-- Witness for `c1_lifo_drain` at the concrete sequence `[10, 20, 30]`. -/
theorem c1_lifo_drain_witness :
    (Buffer.drain
        (Buffer.pushAll (Buffer.Inner.start Nat) [10, 20, 30])).map Prod.snd
      = [30, 20, 10] :=
  c1_lifo_drain [10, 20, 30] (by norm_num)

namespace Retry

/-- Outcome of one upstream attempt: a response, or a transport error. -/
inductive Outcome (Rsp E : Type) where
  | ok (rsp : Rsp)
  | err (e : E)
  deriving Repr, DecidableEq

/-- Model of the external crate type `tower::retry::budget::Budget` from its
documented token-bucket semantics (TTL-based expiry of old deposits is
elided): `balance` counts withdrawable units, `deposit()` credits
`depositAmount` units, and `withdraw()` consumes one unit, failing when the
balance is zero. -/
structure Budget where
  balance : Nat
  depositAmount : Nat
  deriving Repr, DecidableEq

def Budget.deposit (b : Budget) : Budget :=
  { b with balance := b.balance + b.depositAmount }

def Budget.withdraw (b : Budget) : Option Budget :=
  match b.balance with
  | 0 => none
  | n + 1 => some { b with balance := n }

/-- The route retry policy of `app/core/src/retry.rs` (`struct Retry`).  The
response classification pipeline
(`classify::Request::from(response_classes).classify(req).start(rsp).eos(None)
.is_failure()`) lives in `app/core/src/classify.rs`, which is absent from the
snapshot, so it is kept abstract as the function `classifyFailure`.  The
budget is an `Arc<Budget>` shared by the policy and all of its clones, so it
is threaded through explicitly as state. -/
structure Policy (Req Rsp : Type) where
  classifyFailure : Req → Rsp → Bool
  budget : Budget

/-- `Retry::retry` (app/core/src/retry.rs lines 60-87): a transport error or a
response whose classification is not a failure is not retryable — the budget
receives a deposit and no retry is offered.  A retryable failure attempts
`withdraw()`; on success the policy clone (sharing the updated budget) is
returned, otherwise no retry is offered and the budget is left as is.  The
result pairs the decision with the shared budget state after the call. -/
def Policy.retry {Req Rsp E : Type} (p : Policy Req Rsp) (req : Req)
    (result : Outcome Rsp E) : Option (Policy Req Rsp) × Budget :=
  match result with
  | .err _ => (none, p.budget.deposit)
  | .ok rsp =>
    if p.classifyFailure req rsp then
      match p.budget.withdraw with
      | some b => (some { p with budget := b }, b)
      | none => (none, p.budget)
    else (none, p.budget.deposit)

/-- Model of the external crate loop `tower::retry::ResponseFuture::poll`
(tower 0.1), which `Retry::proxy` (linkerd/retry/src/lib.rs lines 92-100)
drives via `oneshot`: on `call`, the request is cloned via
`Policy::clone_request`; after each upstream outcome the policy is consulted;
if it yields a new policy the cloned request is re-dispatched (after being
re-cloned for any further retry), otherwise the outcome is surfaced.  The
upstream service is scripted: attempt `k` observes `script[k]`.  The result
is `(surfaced outcome, number of upstream attempts, final shared budget)`;
`none` when the script is shorter than the attempts made. -/
def retryLoop {Req Rsp E : Type} (cloneReq : Req → Option Req) :
    Policy Req Rsp → Option Req → List (Outcome Rsp E) →
    Option (Outcome Rsp E × Nat × Budget)
  | _, _, [] => none
  | p, none, r :: _ => some (r, 1, p.budget)
  | p, some req, r :: rest =>
    match p.retry req r with
    | (none, b) => some (r, 1, b)
    | (some p2, _) =>
      match retryLoop cloneReq p2 (cloneReq req) rest with
      | none => none
      | some (res, n, b) => some (res, n + 1, b)

theorem Policy.retry_some_balance {Req Rsp E : Type} (p : Policy Req Rsp)
    (req : Req) (r : Outcome Rsp E) (p2 : Policy Req Rsp) (b : Budget)
    (h : p.retry req r = (some p2, b)) :
    p.budget.balance = p2.budget.balance + 1 := by
  match r with
  | .err e => simp [Policy.retry] at h
  | .ok rsp =>
    simp only [Policy.retry] at h
    by_cases hc : p.classifyFailure req rsp = true
    · rw [if_pos hc] at h
      cases hb : p.budget.withdraw with
      | none => rw [hb] at h; simp at h
      | some b2 =>
        rw [hb] at h
        simp only [Prod.mk.injEq, Option.some.injEq] at h
        unfold Budget.withdraw at hb
        cases hbal : p.budget.balance with
        | zero => rw [hbal] at hb; simp at hb
        | succ n =>
          rw [hbal] at hb
          simp only [Option.some.injEq] at hb
          rw [← h.1, ← hb]
    · rw [if_neg hc] at h
      simp at h

theorem retryLoop_attempts_le {Req Rsp E : Type} (cloneReq : Req → Option Req) :
    ∀ (script : List (Outcome Rsp E)) (p : Policy Req Rsp)
      (cloned : Option Req) (res : Outcome Rsp E) (n : Nat) (b : Budget),
      retryLoop cloneReq p cloned script = some (res, n, b) →
      n ≤ p.budget.balance + 1 := by
  intro script
  induction script with
  | nil =>
    intro p cloned res n b h
    simp [retryLoop] at h
  | cons r rest ih =>
    intro p cloned res n b h
    match cloned with
    | none =>
      simp only [retryLoop, Option.some.injEq, Prod.mk.injEq] at h
      omega
    | some req =>
      simp only [retryLoop] at h
      match hr : p.retry req r with
      | (none, b2) =>
        rw [hr] at h
        simp only [Option.some.injEq, Prod.mk.injEq] at h
        omega
      | (some p2, b2) =>
        rw [hr] at h
        dsimp only at h
        match hrec : retryLoop cloneReq p2 (cloneReq req) rest with
        | none => rw [hrec] at h; simp at h
        | some (res2, n2, b3) =>
          rw [hrec] at h
          simp only [Option.some.injEq, Prod.mk.injEq] at h
          have hn2 := ih p2 (cloneReq req) res2 n2 b3 hrec
          have hbal := Policy.retry_some_balance p req r p2 b2 hr
          omega

end Retry

/-- **C2.** Counterexample to "at most one retry per request": with a budget
holding two withdrawable units and upstream outcomes 503, 503, 200 (failure,
failure, success), the retry loop driven by `Retry::proxy` makes three
upstream attempts for the single request — the response obtained from the
first retried attempt is itself classified retryable and retried again, so
two retries are issued, not at most one. -/
theorem c2_single_retry_counterexample :
    Retry.retryLoop (fun _ => some ())
        { classifyFailure := fun (_ : Unit) (r : Bool) => r,
          budget := { balance := 2, depositAmount := 1 } }
        (some ())
        ([Retry.Outcome.ok true, Retry.Outcome.ok true,
          Retry.Outcome.ok false] : List (Retry.Outcome Bool Unit))
      = some (Retry.Outcome.ok false, 3, { balance := 1, depositAmount := 1 })
      ∧ ¬ ((3 : Nat) - 1 ≤ 1) := by
  constructor
  · rfl
  · decide

/-- **C2 (amended).** Retries per request are limited by the retry budget,
not by a one-retry cap: every retry consumes one successful `withdraw()`, so
a request whose retry loop surfaces an outcome after `n` upstream attempts
satisfies `n ≤ initial withdrawable balance + 1`; a retried response may
itself be retried while classification and the budget allow. -/
theorem c2_retries_budget_bounded {Req Rsp E : Type}
    (cloneReq : Req → Option Req) (p : Retry.Policy Req Rsp)
    (cloned : Option Req) (script : List (Retry.Outcome Rsp E))
    (res : Retry.Outcome Rsp E) (n : Nat) (b : Retry.Budget)
    (h : Retry.retryLoop cloneReq p cloned script = some (res, n, b)) :
    n ≤ p.budget.balance + 1 :=
  Retry.retryLoop_attempts_le cloneReq script p cloned res n b h

/-- Witness for `c2_retries_budget_bounded` on the three-attempt run. -/
theorem c2_retries_budget_bounded_witness : (3 : Nat) ≤ 2 + 1 :=
  c2_retries_budget_bounded (fun _ => some ())
    { classifyFailure := fun (_ : Unit) (r : Bool) => r,
      budget := { balance := 2, depositAmount := 1 } }
    (some ())
    ([Retry.Outcome.ok true, Retry.Outcome.ok true,
      Retry.Outcome.ok false] : List (Retry.Outcome Bool Unit))
    (Retry.Outcome.ok false) 3 { balance := 1, depositAmount := 1 } rfl

/-- **C4.** `Retry::retry` budget discipline: a transport error or a response
classified non-retryable deposits into the budget and offers no retry; a
retryable failure attempts `withdraw()`, a retry is offered iff the
withdrawal succeeds, and when it fails no retry occurs and the retry loop
surfaces the original response to the caller with the budget unchanged. -/
theorem c4_budget_discipline {Req Rsp E : Type} (p : Retry.Policy Req Rsp)
    (req : Req) :
    (∀ e : E, p.retry req (Retry.Outcome.err e) = (none, p.budget.deposit))
    ∧ (∀ rsp : Rsp, p.classifyFailure req rsp = false →
        p.retry req (Retry.Outcome.ok rsp : Retry.Outcome Rsp E)
          = (none, p.budget.deposit))
    ∧ (∀ rsp : Rsp, p.classifyFailure req rsp = true →
        ((p.retry req (Retry.Outcome.ok rsp : Retry.Outcome Rsp E)).1.isSome
            ↔ (p.budget.withdraw).isSome)
        ∧ (p.budget.withdraw = none →
            p.retry req (Retry.Outcome.ok rsp : Retry.Outcome Rsp E)
              = (none, p.budget)
            ∧ ∀ (cloneReq : Req → Option Req)
                (rest : List (Retry.Outcome Rsp E)),
                Retry.retryLoop cloneReq p (some req)
                    (Retry.Outcome.ok rsp :: rest)
                  = some (Retry.Outcome.ok rsp, 1, p.budget))) := by
  refine ⟨?_, ?_, ?_⟩
  · intro e
    simp [Retry.Policy.retry]
  · intro rsp hcl
    simp [Retry.Policy.retry, hcl]
  · intro rsp hcl
    constructor
    · cases hb : p.budget.withdraw with
      | none => simp [Retry.Policy.retry, hcl, hb]
      | some b2 => simp [Retry.Policy.retry, hcl, hb]
    · intro hb
      constructor
      · simp [Retry.Policy.retry, hcl, hb]
      · intro cloneReq rest
        simp [Retry.retryLoop, Retry.Policy.retry, hcl, hb]

/-- Witness for `c4_budget_discipline`: a retryable 5xx with an exhausted
budget (balance 0) is not retried and the budget is left unchanged. -/
theorem c4_budget_discipline_witness :
    Retry.Policy.retry
        { classifyFailure := fun (_ : Unit) (r : Bool) => r,
          budget := { balance := 0, depositAmount := 1 } }
        () (Retry.Outcome.ok true : Retry.Outcome Bool Unit)
      = (none, { balance := 0, depositAmount := 1 }) :=
  (((c4_budget_discipline
      { classifyFailure := fun (_ : Unit) (r : Bool) => r,
        budget := { balance := 0, depositAmount := 1 } } ()).2.2 true
      rfl).2 rfl).1

namespace HttpReq

/-- The extensions type-map of an `http::Request`, restricted to the slots the
retry clone logic touches: the TLS accept metadata (`tls::accept::Meta`, the
peer identity), the handle-time tracker (`handle_time::Tracker`, the
elapsed-time extension), and a list of all remaining extension values of some
other type `O`.  A fresh request (`Request::new`) has every slot empty. -/
structure Extensions (TM TR O : Type) where
  tlsAcceptMeta : Option TM
  handleTimeTracker : Option TR
  others : List O
  deriving Repr, DecidableEq

/-- An `http::Request<B>` as the retry clone logic observes it: method, URI,
header map and version are opaque values of types `M`, `U`, `H`, `V`; the
body has type `B`. -/
structure Request (M U H V B TM TR O : Type) where
  method : M
  uri : U
  headers : H
  version : V
  body : B
  extensions : Extensions TM TR O
  deriving Repr, DecidableEq

/-- `TryClone for Request<B>` (proxy/http/src/retry.rs lines 239-262):
if the body clones (`bodyClone` is the body's `TryClone` impl), build
`Request::new(body)` — whose extensions start empty — copy method, URI,
headers and version, and insert only the `tls::accept::Meta` and
`handle_time::Tracker` extensions when the original carries them; otherwise
return `None`. -/
def try_clone {M U H V B TM TR O : Type} (bodyClone : B → Option B)
    (req : Request M U H V B TM TR O) : Option (Request M U H V B TM TR O) :=
  match bodyClone req.body with
  | none => none
  | some b =>
    some
      { method := req.method
        uri := req.uri
        headers := req.headers
        version := req.version
        body := b
        extensions :=
          { tlsAcceptMeta := req.extensions.tlsAcceptMeta
            handleTimeTracker := req.extensions.handleTimeTracker
            others := [] } }

/-- `Policy::clone_request` (proxy/http/src/retry.rs lines 184-192) delegates
to the route policy hook `Retry::clone_request`, which clones via the
request's `TryClone` impl above (the tracing side effects are elided). -/
def clone_request {M U H V B TM TR O : Type} (bodyClone : B → Option B)
    (req : Request M U H V B TM TR O) : Option (Request M U H V B TM TR O) :=
  try_clone bodyClone req

end HttpReq

/-- **C5.** `clone_request` returns `None` exactly when the body cannot be
cloned, and in that case the retry loop makes a single upstream attempt —
no retry — regardless of the budget.  When the clone succeeds it agrees with
the original on method, URI, header map and version, carries the
peer-identity and elapsed-time extensions copied from the original, and
every other extension is absent from the clone. -/
theorem c5_clone_request_discipline {M U H V B TM TR O : Type}
    (bodyClone : B → Option B) (req : HttpReq.Request M U H V B TM TR O) :
    (HttpReq.clone_request bodyClone req = none ↔ bodyClone req.body = none)
    ∧ (∀ c : HttpReq.Request M U H V B TM TR O,
        HttpReq.clone_request bodyClone req = some c →
          c.method = req.method ∧ c.uri = req.uri ∧ c.headers = req.headers
          ∧ c.version = req.version
          ∧ c.extensions.tlsAcceptMeta = req.extensions.tlsAcceptMeta
          ∧ c.extensions.handleTimeTracker = req.extensions.handleTimeTracker
          ∧ c.extensions.others = [])
    ∧ (HttpReq.clone_request bodyClone req = none →
        ∀ {Rsp E : Type} (p : Retry.Policy (HttpReq.Request M U H V B TM TR O) Rsp)
          (r : Retry.Outcome Rsp E) (rest : List (Retry.Outcome Rsp E)),
          Retry.retryLoop (HttpReq.clone_request bodyClone) p
              (HttpReq.clone_request bodyClone req) (r :: rest)
            = some (r, 1, p.budget)) := by
  refine ⟨?_, ?_, ?_⟩
  · cases hb : bodyClone req.body with
    | none => simp [HttpReq.clone_request, HttpReq.try_clone, hb]
    | some b => simp [HttpReq.clone_request, HttpReq.try_clone, hb]
  · intro c hc
    cases hb : bodyClone req.body with
    | none => simp [HttpReq.clone_request, HttpReq.try_clone, hb] at hc
    | some b =>
      simp only [HttpReq.clone_request, HttpReq.try_clone, hb,
        Option.some.injEq] at hc
      subst hc
      simp
  · intro hnone Rsp E p r rest
    rw [hnone]
    rfl

/-- Witness for `c5_clone_request_discipline`: a request with a
non-cloneable body is not retried even with budget available. -/
theorem c5_clone_request_discipline_witness :
    Retry.retryLoop
        (HttpReq.clone_request (fun (_ : Unit) => (none : Option Unit)))
        { classifyFailure := fun _ (r : Bool) => r,
          budget := { balance := 5, depositAmount := 1 } }
        (HttpReq.clone_request (fun (_ : Unit) => (none : Option Unit))
          { method := (0 : Nat), uri := (0 : Nat), headers := (0 : Nat),
            version := (0 : Nat), body := (),
            extensions := { tlsAcceptMeta := (none : Option Unit),
                            handleTimeTracker := (none : Option Unit),
                            others := ([] : List Unit) } })
        ([Retry.Outcome.ok true, Retry.Outcome.ok true]
          : List (Retry.Outcome Bool Unit))
      = some (Retry.Outcome.ok true, 1,
          { balance := 5, depositAmount := 1 }) :=
  (c5_clone_request_discipline (fun (_ : Unit) => (none : Option Unit))
      { method := (0 : Nat), uri := (0 : Nat), headers := (0 : Nat),
        version := (0 : Nat), body := (),
        extensions := { tlsAcceptMeta := (none : Option Unit),
                        handleTimeTracker := (none : Option Unit),
                        others := ([] : List Unit) } }).2.2 rfl
    { classifyFailure := fun _ (r : Bool) => r,
      budget := { balance := 5, depositAmount := 1 } }
    (Retry.Outcome.ok true) [Retry.Outcome.ok true]

namespace Lock

/-- The shared state guarded by the lock (`linkerd/lock/src/lib.rs`,
`enum State<S, E>`): either the inner service or a cached (poisoned)
error. -/
inductive State (S E : Type) where
  | service (s : S)
  | error (e : E)
  deriving Repr, DecidableEq

/-- One scripted outcome of the inner service's `poll_ready`, together with
the service state it leaves behind. -/
inductive InnerPoll (S E : Type) where
  | ready (s : S)
  | notReady (s : S)
  | err (e : E)
  deriving Repr, DecidableEq

/-- What one `Lock::poll_ready` call returns to its caller. -/
inductive PollOutcome (E : Type) where
  | ready
  | notReady
  | err (e : E)
  deriving Repr, DecidableEq

/-- `Lock::poll_ready` (lock/src/lib.rs lines 76-108), single-threaded model
(`poll_lock` acquires immediately; waker bookkeeping elided).  `innerStep`
is the inner service's `poll_ready`.  Returns the caller-visible outcome,
the shared state after the call, and whether the inner service was polled.
On an inner error the error is converted, cloned into the shared state
(`State::Error`), the guard is released, and the error is returned; on a
lock already holding `State::Error` the stored error is cloned and returned
without touching any service. -/
def poll_ready {S E : Type} (innerStep : S → InnerPoll S E) :
    State S E → PollOutcome E × State S E × Bool
  | .error e => (.err e, .error e, false)
  | .service s =>
    match innerStep s with
    | .ready s2 => (.ready, .service s2, true)
    | .notReady s2 => (.notReady, .service s2, true)
    | .err e => (.err e, .error e, true)

/-- Iterate `Lock::poll_ready` (by this handle or any clone sharing the lock)
`n` times, recording each caller-visible outcome and whether the inner
service was polled. -/
def pollSeq {S E : Type} (innerStep : S → InnerPoll S E) :
    Nat → State S E → List (PollOutcome E × Bool) × State S E
  | 0, st => ([], st)
  | n + 1, st =>
    let step := poll_ready innerStep st
    let rest := pollSeq innerStep n step.2.1
    ((step.1, step.2.2) :: rest.1, rest.2)

theorem pollSeq_error {S E : Type} (innerStep : S → InnerPoll S E) (e : E) :
    ∀ n : Nat,
      pollSeq innerStep n (.error e)
        = (List.replicate n (PollOutcome.err e, false), .error e) := by
  intro n
  induction n with
  | zero => rfl
  | succ n ih => simp [pollSeq, poll_ready, ih, List.replicate_succ]

end Lock

/-- **C6.** Lock poisoning: when the inner service's `poll_ready` fails with
`e`, the lock's shared state transitions to `State::Error e` and the failure
is returned; afterwards, every subsequent `poll_ready` through any clone of
the lock returns (a clone of) that same error and never polls an inner
service again, for as long as that lock state exists. -/
theorem c6_lock_poisoning {S E : Type} (innerStep : S → Lock.InnerPoll S E)
    (s : S) (e : E) (h : innerStep s = .err e) :
    Lock.poll_ready innerStep (.service s) = (.err e, .error e, true)
    ∧ ∀ n : Nat,
        Lock.pollSeq innerStep n (.error e)
          = (List.replicate n (Lock.PollOutcome.err e, false), .error e) := by
  constructor
  · simp [Lock.poll_ready, h]
  · exact Lock.pollSeq_error innerStep e

/-- Witness for `c6_lock_poisoning`: a one-state service that fails at once
poisons the lock, and three further polls all return the cached error
without polling any inner service. -/
theorem c6_lock_poisoning_witness :
    Lock.poll_ready (fun (_ : Unit) => Lock.InnerPoll.err (37 : Nat)) (.service ())
      = (.err 37, .error 37, true)
    ∧ Lock.pollSeq (fun (_ : Unit) => Lock.InnerPoll.err (37 : Nat)) 3 (.error 37)
      = ([(.err 37, false), (.err 37, false), (.err 37, false)], .error 37) := by
  have h := c6_lock_poisoning (fun (_ : Unit) => Lock.InnerPoll.err (37 : Nat))
    () 37 rfl
  exact ⟨h.1, h.2 3⟩

namespace CacheRouter

/-- The capacity error of `linkerd/cache/src/error.rs` (`NoCapacity(cap)`),
carrying the configured capacity. -/
structure NoCapacity where
  capacity : Nat
  deriving Repr, DecidableEq

/-- Modelled from the spec: the cache internals (`linkerd/cache/src/cache.rs`)
are absent from the snapshot; per spec section 4.2 an entry is
`{key, service, last-access instant}`, `access(key)` refreshes last-access
and returns the stored service, capacity admits an insert only while
`|entries| < capacity`, and the cache is the sole constructor of values.
`now` is the instant used for last-access stamps. -/
structure Cache (K V : Type) where
  capacity : Nat
  entries : List (K × V × Nat)
  now : Nat
  deriving Repr, DecidableEq

/-- Modelled from the spec: `Cache::access` — if an entry for the key is
present, refresh its last-access to the current instant and return the
stored service; otherwise leave the cache untouched. -/
def access {K V : Type} [DecidableEq K] (c : Cache K V) (k : K) :
    Option V × Cache K V :=
  match c.entries.find? (fun e => e.1 = k) with
  | none => (none, c)
  | some e =>
    (some e.2.1,
      { c with
          entries :=
            c.entries.map (fun e2 => if e2.1 = k then (e2.1, e2.2.1, c.now) else e2) })

/-- Modelled from the spec: `Cache::can_insert` — there is room for a new
entry only while the entry count is below capacity. -/
def can_insert {K V : Type} (c : Cache K V) : Bool :=
  c.entries.length < c.capacity

/-- Modelled from the spec: `Cache::insert` — record the new entry with the
current instant as its last-access. -/
def insert {K V : Type} (c : Cache K V) (k : K) (v : V) : Cache K V :=
  { c with entries := c.entries ++ [(k, v, c.now)] }

/-- `ResponseFuture::poll` (cache/src/lib.rs lines 133-158), single-threaded
model (the cache mutex is acquired immediately).  Returns the outcome, the
cache state after the call, and how many times the underlying maker was
invoked. -/
def responseFuturePoll {K V : Type} [DecidableEq K] (make : K → V)
    (c : Cache K V) (target : K) :
    Except NoCapacity V × Cache K V × Nat :=
  match access c target with
  | (some v, c2) => (.ok v, c2, 0)
  | (none, c2) =>
    if can_insert c2 then
      let v := make target
      (.ok v, insert c2 target v, 1)
    else (.error ⟨c2.capacity⟩, c2, 0)

/-- The cache-backed router (`struct Router` in cache/src/lib.rs): a maker
plus the shared cache behind its lock. -/
structure Router (K V : Type) where
  make : K → V
  cache : Cache K V

/-- What `Router::poll_ready` reports. -/
inductive ReadyPoll (E : Type) where
  | ready
  | notReady
  | err (e : E)
  deriving Repr, DecidableEq

/-- `Router::poll_ready` (cache/src/lib.rs lines 95-97): `Ok(().into())` —
always ready, in every state. -/
def Router.poll_ready {K V : Type} (_ : Router K V) : ReadyPoll NoCapacity :=
  .ready

/-- The pending `ResponseFuture` built by `Router::call`. -/
structure ResponseFuture (K V : Type) where
  target : K
  make : K → V
  cache : Cache K V

/-- `Router::call` (cache/src/lib.rs lines 102-104): merely constructs the
response future from clones of the maker and the cache handle; no error
and no cache mutation happens here. -/
def Router.call {K V : Type} (r : Router K V) (t : K) : ResponseFuture K V :=
  { target := t, make := r.make, cache := r.cache }

end CacheRouter

/-- **C3.** The cache-backed router's response future: if an entry for the
key is present, it resolves to the stored service and refreshes the entry's
last-access (maker not invoked); if the key is absent and the entry count is
below capacity, the maker is invoked exactly once and its result inserted
and returned; if the key is absent and the cache is full, it fails with
`NoCapacity` carrying the configured capacity and no entry is inserted. -/
theorem c3_cache_access_cases {K V : Type} [DecidableEq K] (make : K → V)
    (c : CacheRouter.Cache K V) (k : K) :
    (∀ e : K × V × Nat, c.entries.find? (fun e2 => e2.1 = k) = some e →
        (CacheRouter.responseFuturePoll make c k).1 = .ok e.2.1
        ∧ (CacheRouter.responseFuturePoll make c k).2.2 = 0
        ∧ (k, e.2.1, c.now) ∈ (CacheRouter.responseFuturePoll make c k).2.1.entries)
    ∧ (c.entries.find? (fun e2 => e2.1 = k) = none →
        c.entries.length < c.capacity →
        CacheRouter.responseFuturePoll make c k
          = (.ok (make k),
              { c with entries := c.entries ++ [(k, make k, c.now)] }, 1))
    ∧ (c.entries.find? (fun e2 => e2.1 = k) = none →
        ¬ c.entries.length < c.capacity →
        CacheRouter.responseFuturePoll make c k
          = (.error ⟨c.capacity⟩, c, 0)) := by
  refine ⟨?_, ?_, ?_⟩
  · intro e hfind
    have hkey : (e.1 = k) = True := by
      have := List.find?_some hfind
      simp only [decide_eq_true_eq] at this
      simp [this]
    have hmem : e ∈ c.entries := List.mem_of_find?_eq_some hfind
    refine ⟨?_, ?_, ?_⟩
    · simp [CacheRouter.responseFuturePoll, CacheRouter.access, hfind]
    · simp [CacheRouter.responseFuturePoll, CacheRouter.access, hfind]
    · simp only [CacheRouter.responseFuturePoll, CacheRouter.access, hfind]
      have : (k, e.2.1, c.now)
          = (fun e2 : K × V × Nat =>
              if e2.1 = k then (e2.1, e2.2.1, c.now) else e2) e := by
        simp only [hkey, if_true]
        have hk : e.1 = k := of_eq_true hkey
        rw [hk]
      rw [this]
      exact List.mem_map_of_mem _ hmem
  · intro hfind hcap
    simp [CacheRouter.responseFuturePoll, CacheRouter.access, hfind,
      CacheRouter.can_insert, hcap, CacheRouter.insert]
  · intro hfind hcap
    simp [CacheRouter.responseFuturePoll, CacheRouter.access, hfind,
      CacheRouter.can_insert, hcap]

/-- Witness for `c3_cache_access_cases`: a full capacity-1 cache holding key
`1` rejects key `2` with `NoCapacity 1` and inserts nothing. -/
theorem c3_cache_access_cases_witness :
    CacheRouter.responseFuturePoll (fun k : Nat => k * 10)
        { capacity := 1, entries := [(1, 10, 0)], now := 5 } 2
      = (.error ⟨1⟩, { capacity := 1, entries := [(1, 10, 0)], now := 5 }, 0) :=
  (c3_cache_access_cases (fun k : Nat => k * 10)
      { capacity := 1, entries := [(1, 10, 0)], now := 5 } 2).2.2
    (by decide) (by decide)

/-- **C10.** The cache-backed router never exerts backpressure and never
errors from `poll_ready`: it reports ready in every state, `call` only
constructs the response future, and the only failure the future can surface
is `NoCapacity` with the configured capacity — otherwise it resolves to a
service. -/
theorem c10_router_poll_ready_total {K V : Type} [DecidableEq K] :
    (∀ r : CacheRouter.Router K V, r.poll_ready = .ready)
    ∧ (∀ (r : CacheRouter.Router K V) (t : K),
        r.call t = { target := t, make := r.make, cache := r.cache })
    ∧ (∀ (make : K → V) (c : CacheRouter.Cache K V) (k : K),
        (CacheRouter.responseFuturePoll make c k).1
            = .error ⟨c.capacity⟩
        ∨ ∃ v : V, (CacheRouter.responseFuturePoll make c k).1 = .ok v) := by
  refine ⟨fun _ => rfl, fun _ _ => rfl, ?_⟩
  intro make c k
  unfold CacheRouter.responseFuturePoll
  cases hacc : CacheRouter.access c k with
  | mk fst snd =>
    cases fst with
    | some v => exact Or.inr ⟨v, rfl⟩
    | none =>
      by_cases hin : CacheRouter.can_insert snd
      · exact Or.inr ⟨make k, by simp [hin]⟩
      · left
        have hcap : snd.capacity = c.capacity := by
          unfold CacheRouter.access at hacc
          cases hf : c.entries.find? (fun e => e.1 = k) with
          | none => rw [hf] at hacc; cases hacc; rfl
          | some e => rw [hf] at hacc; simp at hacc
        simp [hin, hcap]

namespace Concrete

/-- The dispatcher state of `profiles/concrete.rs` (`enum Routes<S>`): a
single forward, or a weighted split.  The split keeps the weight list of its
`WeightedIndex<u32>` distribution parallel (index by index) to the
`IndexMap<NameAddr, S>` of services, exactly as `set_split` builds them. -/
inductive Routes (A S : Type) where
  | forward (addr : Option A) (service : S)
  | split (weights : List Nat) (services : List (A × S))
  deriving Repr, DecidableEq

/-- The concrete `Service` (concrete.rs lines 39-45): the current routes and
the split index cached by the last successful `poll_ready`.  The watch
receiver and the PRNG are supplied to `poll_ready` as explicit inputs. -/
structure Service (A S : Type) where
  routes : Routes A S
  nextSplitIndex : Option Nat
  deriving Repr, DecidableEq

/-- Model of the external crate sampler
`rand::distributions::WeightedIndex<u32>` from its documented semantics: the
uniform draw `x` ranges over `[0, total weight)` and sampling returns the
first index whose cumulative weight exceeds `x`. -/
def weightedSample (weights : List Nat) (x : Nat) : Nat :=
  match weights with
  | [] => 0
  | w :: ws => if x < w then 0 else weightedSample ws (x - w) + 1

/-- The update-drain loop at the head of `poll_ready` (concrete.rs lines
96-105): every pending update replaces the routes and clears the cached
split index; the net effect is the last pending update, if any. -/
def drainUpdates {A S : Type} (c : Service A S) (updates : List (Routes A S)) :
    Service A S :=
  match updates.getLast? with
  | none => c
  | some r => { routes := r, nextSplitIndex := none }

/-- What one iteration pass of the split readiness loop produces. -/
inductive LoopResult where
  | readyAt (idx : Nat)
  | notReady
  | indexPanic
  deriving Repr, DecidableEq

/-- The readiness loop of the `Routes::Split` branch of `poll_ready`
(concrete.rs lines 121-136): `services.len()` iterations, each sampling an
index from the weighted distribution with a fresh PRNG draw (`draws`
supplies the uniform draws, one per iteration) and polling that service;
the first ready one is cached.  `indexPanic` is the
`expect("split index out of range")` path.  Inner `poll_ready` errors are
elided; `readyFn` is the scripted readiness of each sub-service. -/
def splitLoop {A S : Type} (readyFn : S → Bool) (weights : List Nat)
    (services : List (A × S)) : List Nat → LoopResult
  | [] => .notReady
  | x :: xs =>
    let idx := weightedSample weights x
    match services.get? idx with
    | none => .indexPanic
    | some p => if readyFn p.2 then .readyAt idx else splitLoop readyFn weights services xs

inductive Poll where
  | ready
  | notReady
  deriving Repr, DecidableEq

/-- `Service::poll_ready` (concrete.rs lines 95-139): drain pending updates,
then in `Forward` poll the single service; in `Split`, return ready at once
if an index is already cached, otherwise run the sampling loop and cache the
first ready index.  `none` models the panic path. -/
def poll_ready {A S : Type} (readyFn : S → Bool) (draws : List Nat)
    (updates : List (Routes A S)) (c : Service A S) :
    Option (Poll × Service A S) :=
  let c2 := drainUpdates c updates
  match c2.routes with
  | .forward _ svc =>
    some (if readyFn svc then .ready else .notReady, c2)
  | .split weights services =>
    if c2.nextSplitIndex.isSome then some (.ready, c2)
    else
      match splitLoop readyFn weights services draws with
      | .readyAt idx => some (.ready, { c2 with nextSplitIndex := some idx })
      | .notReady => some (.notReady, c2)
      | .indexPanic => none

/-- The observable effect of `Service::call`. -/
inductive CallResult (A S : Type) where
  | forwarded (service : S) (after : Service A S)
  | dispatchedAt (idx : Nat) (target : A × S) (after : Service A S)
  | panicked
  deriving Repr, DecidableEq

/-- `Service::call` (concrete.rs lines 141-160): `Forward` dispatches to the
single service; `Split` takes the cached index — panicking with
`expect("concrete router is not ready")` when none is cached — and
dispatches to the service at that index, panicking with
`expect("split index out of range")` when it is out of bounds. -/
def call {A S : Type} (c : Service A S) : CallResult A S :=
  match c.routes with
  | .forward _ svc => .forwarded svc c
  | .split _ services =>
    match c.nextSplitIndex with
    | none => .panicked
    | some idx =>
      match services.get? idx with
      | none => .panicked
      | some p => .dispatchedAt idx p { c with nextSplitIndex := none }

/-- `Update::set_split` (concrete.rs lines 186-272).  `make` composes
`target.clone().with_addr(addr)` with the inner maker.  A single override
becomes a forward (reusing the service when the address is unchanged, or,
from a split, when the split already holds it); two or more overrides build
a split whose weight table follows the override order, reusing prior split
services by address and making new ones otherwise. -/
def set_split {A S : Type} [DecidableEq A] (make : A → S) (prior : Routes A S)
    (addrs : List (A × Nat)) : Routes A S :=
  match prior, addrs with
  | .forward addr svc, [single] =>
    if addr = some single.1 then .forward addr svc
    else .forward (some single.1) (make single.1)
  | .forward _ _, addrs =>
    .split (addrs.map Prod.snd) (addrs.map (fun p => (p.1, make p.1)))
  | .split _ services, [single] =>
    .forward (some single.1)
      (match services.find? (fun q => q.1 = single.1) with
        | some q => q.2
        | none => make single.1)
  | .split _ services, addrs =>
    .split (addrs.map Prod.snd)
      (addrs.map (fun p =>
        match services.find? (fun q => q.1 = p.1) with
        | some q => (p.1, q.2)
        | none => (p.1, make p.1)))

theorem weightedSample_one_zero (x : Nat) (h : x < 1) :
    weightedSample [1, 0] x = 0 := by
  have hx : x = 0 := Nat.lt_one_iff.1 h
  subst hx
  rfl

theorem splitLoop_readyAt_get {A S : Type} (readyFn : S → Bool)
    (weights : List Nat) (services : List (A × S)) :
    ∀ (draws : List Nat) (idx : Nat),
      splitLoop readyFn weights services draws = .readyAt idx →
      ∃ p : A × S, services.get? idx = some p ∧ readyFn p.2 = true := by
  intro draws
  induction draws with
  | nil => intro idx h; simp [splitLoop] at h
  | cons x xs ih =>
    intro idx h
    simp only [splitLoop] at h
    cases hg : services.get? (weightedSample weights x) with
    | none => rw [hg] at h; simp at h
    | some p =>
      rw [hg] at h
      dsimp only at h
      by_cases hr : readyFn p.2 = true
      · rw [if_pos hr] at h
        cases h
        exact ⟨p, hg, hr⟩
      · rw [if_neg hr] at h
        exact ih idx h

theorem splitLoop_one_zero_idx {A S : Type} (readyFn : S → Bool)
    (services : List (A × S)) :
    ∀ (draws : List Nat), (∀ x ∈ draws, x < 1) →
      ∀ idx : Nat,
        splitLoop readyFn [1, 0] services draws = .readyAt idx → idx = 0 := by
  intro draws
  induction draws with
  | nil => intro _ idx h; simp [splitLoop] at h
  | cons x xs ih =>
    intro hd idx h
    have hx : x < 1 := hd x (List.mem_cons_self x xs)
    simp only [splitLoop, weightedSample_one_zero x hx] at h
    cases hg : services.get? 0 with
    | none => rw [hg] at h; simp at h
    | some p =>
      rw [hg] at h
      dsimp only at h
      by_cases hr : readyFn p.2 = true
      · rw [if_pos hr] at h
        cases h
        rfl
      · rw [if_neg hr] at h
        exact ih (fun y hy => hd y (List.mem_cons_of_mem x hy)) idx h

end Concrete

/-- **C7.** A split built by `set_split` from the weighted overrides
`[(A,1),(B,0)]` places A at index 0 with weight 1 and B at index 1 with
weight 0; every readiness sample of the weighted distribution returns
index 0 and never index 1, so whenever `poll_ready` caches an index and
`call` dispatches, the request goes to A and never to B. -/
theorem c7_zero_weight_never_selected {A S : Type} [DecidableEq A]
    (make : A → S) (a b : A) (svc0 : S) (readyFn : S → Bool)
    (draws : List Nat) (hdraws : ∀ x ∈ draws, x < 1) :
    Concrete.set_split make (.forward none svc0) [(a, 1), (b, 0)]
      = .split [1, 0] [(a, make a), (b, make b)]
    ∧ (∀ x : Nat, x < 1 → Concrete.weightedSample [1, 0] x = 0)
    ∧ (∀ (r : Concrete.Poll) (c2 : Concrete.Service A S),
        Concrete.poll_ready readyFn draws []
            { routes := .split [1, 0] [(a, make a), (b, make b)],
              nextSplitIndex := none }
          = some (r, c2) →
        ∀ (idx : Nat) (p : A × S) (after : Concrete.Service A S),
          Concrete.call c2 = .dispatchedAt idx p after →
            idx = 0 ∧ p = (a, make a)) := by
  refine ⟨rfl, fun x hx => Concrete.weightedSample_one_zero x hx, ?_⟩
  intro r c2 hp idx p after hc
  cases hsl : Concrete.splitLoop readyFn [1, 0] [(a, make a), (b, make b)]
      draws with
  | readyAt idx0 =>
    have hidx0 : idx0 = 0 :=
      Concrete.splitLoop_one_zero_idx readyFn [(a, make a), (b, make b)]
        draws hdraws idx0 hsl
    subst hidx0
    have hp2 : Concrete.poll_ready readyFn draws []
        ({ routes := .split [1, 0] [(a, make a), (b, make b)],
           nextSplitIndex := none } : Concrete.Service A S)
        = some (.ready,
            { routes := .split [1, 0] [(a, make a), (b, make b)],
              nextSplitIndex := some 0 }) := by
      simp [Concrete.poll_ready, Concrete.drainUpdates, hsl]
    rw [hp2] at hp
    simp only [Option.some.injEq, Prod.mk.injEq] at hp
    rw [← hp.2] at hc
    have hcall : Concrete.call
        ({ routes := .split [1, 0] [(a, make a), (b, make b)],
           nextSplitIndex := some 0 } : Concrete.Service A S)
        = .dispatchedAt 0 (a, make a)
            { routes := .split [1, 0] [(a, make a), (b, make b)],
              nextSplitIndex := none } := rfl
    rw [hcall] at hc
    cases hc
    exact ⟨rfl, rfl⟩
  | notReady =>
    have hp2 : Concrete.poll_ready readyFn draws []
        ({ routes := .split [1, 0] [(a, make a), (b, make b)],
           nextSplitIndex := none } : Concrete.Service A S)
        = some (.notReady,
            { routes := .split [1, 0] [(a, make a), (b, make b)],
              nextSplitIndex := none }) := by
      simp [Concrete.poll_ready, Concrete.drainUpdates, hsl]
    rw [hp2] at hp
    simp only [Option.some.injEq, Prod.mk.injEq] at hp
    rw [← hp.2] at hc
    simp [Concrete.call] at hc
  | indexPanic =>
    have hp2 : Concrete.poll_ready readyFn draws []
        ({ routes := .split [1, 0] [(a, make a), (b, make b)],
           nextSplitIndex := none } : Concrete.Service A S)
        = none := by
      simp [Concrete.poll_ready, Concrete.drainUpdates, hsl]
    rw [hp2] at hp
    cases hp

/-- Witness for `c7_zero_weight_never_selected`: the `[(A,1),(B,0)]` split
over naturals, with two in-range draws. -/
theorem c7_zero_weight_never_selected_witness :
    Concrete.set_split (fun n : Nat => n + 100)
        (.forward none (0 : Nat)) [(0, 1), (1, 0)]
      = .split [1, 0] [(0, 100), (1, 101)] :=
  (c7_zero_weight_never_selected (fun n : Nat => n + 100) 0 1 0
      (fun _ => true) [0, 0] (by decide)).1

/-- **C9.** Readiness discipline of the concrete split service: starting
from a split state with no cached index, if `poll_ready` returns `Ready`
then an in-range index was cached, `call` does not panic — it dispatches to
the service at the cached index and clears it — and a further `call` without
a new successful `poll_ready` hits the panicking branch. -/
theorem c9_call_readiness_discipline {A S : Type} (readyFn : S → Bool)
    (draws : List Nat) (weights : List Nat) (services : List (A × S))
    (c : Concrete.Service A S)
    (hroutes : c.routes = .split weights services)
    (hidx : c.nextSplitIndex = none)
    (c2 : Concrete.Service A S)
    (hp : Concrete.poll_ready readyFn draws [] c = some (.ready, c2)) :
    ∃ (idx : Nat) (p : A × S),
      c2.nextSplitIndex = some idx
      ∧ services.get? idx = some p
      ∧ Concrete.call c2
          = .dispatchedAt idx p { c2 with nextSplitIndex := none }
      ∧ Concrete.call { c2 with nextSplitIndex := none }
          = Concrete.CallResult.panicked := by
  obtain ⟨routes, nsi⟩ := c
  simp only at hroutes hidx
  subst hroutes
  subst hidx
  cases hsl : Concrete.splitLoop readyFn weights services draws with
  | readyAt idx0 =>
    obtain ⟨p, hget, hready⟩ :=
      Concrete.splitLoop_readyAt_get readyFn weights services draws idx0 hsl
    have hp2 : Concrete.poll_ready readyFn draws []
        ({ routes := .split weights services,
           nextSplitIndex := none } : Concrete.Service A S)
        = some (.ready,
            { routes := .split weights services,
              nextSplitIndex := some idx0 }) := by
      simp [Concrete.poll_ready, Concrete.drainUpdates, hsl]
    rw [hp2] at hp
    simp only [Option.some.injEq, Prod.mk.injEq] at hp
    rw [← hp.2]
    have hget2 : services[idx0]? = some p := by
      rw [← List.get?_eq_getElem?]
      exact hget
    refine ⟨idx0, p, rfl, hget, ?_, ?_⟩
    · simp [Concrete.call, hget2]
    · simp [Concrete.call]
  | notReady =>
    have hp2 : Concrete.poll_ready readyFn draws []
        ({ routes := .split weights services,
           nextSplitIndex := none } : Concrete.Service A S)
        = some (.notReady,
            { routes := .split weights services,
              nextSplitIndex := none }) := by
      simp [Concrete.poll_ready, Concrete.drainUpdates, hsl]
    rw [hp2] at hp
    simp at hp
  | indexPanic =>
    have hp2 : Concrete.poll_ready readyFn draws []
        ({ routes := .split weights services,
           nextSplitIndex := none } : Concrete.Service A S)
        = none := by
      simp [Concrete.poll_ready, Concrete.drainUpdates, hsl]
    rw [hp2] at hp
    cases hp

/-- Witness for `c9_call_readiness_discipline`: a two-way split over
naturals whose first sampled endpoint is ready. -/
theorem c9_call_readiness_discipline_witness :
    ∃ (idx : Nat) (p : Nat × Nat),
      ({ routes := Concrete.Routes.split [2, 3] [(5, 50), (6, 60)],
         nextSplitIndex := some 0 } : Concrete.Service Nat Nat).nextSplitIndex
          = some idx
      ∧ [(5, 50), (6, 60)].get? idx = some p
      ∧ Concrete.call
          ({ routes := Concrete.Routes.split [2, 3] [(5, 50), (6, 60)],
             nextSplitIndex := some 0 } : Concrete.Service Nat Nat)
          = .dispatchedAt idx p
              { ({ routes := Concrete.Routes.split [2, 3] [(5, 50), (6, 60)],
                   nextSplitIndex := some 0 } : Concrete.Service Nat Nat) with
                  nextSplitIndex := none }
      ∧ Concrete.call
          { ({ routes := Concrete.Routes.split [2, 3] [(5, 50), (6, 60)],
               nextSplitIndex := some 0 } : Concrete.Service Nat Nat) with
              nextSplitIndex := none }
          = Concrete.CallResult.panicked :=
  c9_call_readiness_discipline (fun _ => true) [0] [2, 3] [(5, 50), (6, 60)]
    { routes := Concrete.Routes.split [2, 3] [(5, 50), (6, 60)],
      nextSplitIndex := none } rfl rfl
    { routes := Concrete.Routes.split [2, 3] [(5, 50), (6, 60)],
      nextSplitIndex := some 0 } rfl

namespace Fallback

/-- `MakeFuture::poll` (linkerd/fallback/src/lib.rs lines 166-198), driven to
completion.  `MakeSvc::call` (lines 127-134) stored a clone of the target and
started the primary maker; `primaryResult` is the outcome of the primary
maker's future, `pred` the configured predicate (the outbound assembly passes
`LogicalError::is_discovery_rejected`, app/outbound/src/lib.rs lines
313-319), and `fallbackMake` the fallback maker's `make_service` driven to
completion (its `poll_ready` waiting is elided).  The first component is the
outcome surfaced to the caller (`Either::A` the primary service, `Either::B`
the fallback one); the second records the target the fallback maker was
invoked with, if it was invoked at all. -/
def makeFuturePoll {T E SA SB : Type} (pred : E → Bool)
    (primaryResult : Except E SA) (fallbackMake : T → Except E SB)
    (target : T) : Except E (SA ⊕ SB) × Option T :=
  match primaryResult with
  | .ok svc => (.ok (.inl svc), none)
  | .error e =>
    if pred e then
      match fallbackMake target with
      | .ok svc => (.ok (.inr svc), some target)
      | .error e2 => (.error e2, some target)
    else (.error e, none)

end Fallback

/-- **C8.** The fallback make-service: a successful primary future yields the
primary service (fallback never invoked); a primary failure satisfying the
discovery-rejected predicate invokes the fallback maker with the same
(cloned) target and surfaces its outcome; a primary failure not satisfying
the predicate is surfaced as is, and the fallback maker is never invoked. -/
theorem c8_fallback_on_predicate {T E SA SB : Type} (pred : E → Bool)
    (fallbackMake : T → Except E SB) (target : T) :
    (∀ svc : SA,
        Fallback.makeFuturePoll pred (.ok svc) fallbackMake target
          = (.ok (.inl svc), none))
    ∧ (∀ e : E, pred e = true →
        Fallback.makeFuturePoll pred (Except.error e : Except E SA)
            fallbackMake target
          = ((fallbackMake target).map Sum.inr, some target))
    ∧ (∀ e : E, pred e = false →
        Fallback.makeFuturePoll pred (Except.error e : Except E SA)
            fallbackMake target
          = (.error e, none)) := by
  refine ⟨fun svc => rfl, ?_, ?_⟩
  · intro e he
    cases hf : fallbackMake target with
    | ok svc => simp [Fallback.makeFuturePoll, he, hf, Except.map]
    | error e2 => simp [Fallback.makeFuturePoll, he, hf, Except.map]
  · intro e he
    simp [Fallback.makeFuturePoll, he]

/-- Witness for `c8_fallback_on_predicate`: a discovery-rejected primary
failure (error 7, matched by the predicate) falls back to the maker invoked
on the original target 42. -/
theorem c8_fallback_on_predicate_witness :
    Fallback.makeFuturePoll (fun e : Nat => e = 7)
        (Except.error 7 : Except Nat Unit) (fun t : Nat => Except.ok (t + 1)) 42
      = (.ok (.inr 43), some 42) :=
  ((c8_fallback_on_predicate (fun e : Nat => e = 7)
      ((fun t : Nat => Except.ok (t + 1)) : Nat → Except Nat Nat) 42).2.1 7
    (by decide))
